import Mathlib

/-!
Verification of the pyramid-preserving streaming conversion engine of
`linc_convert` (`src/linc_convert/modalities/df/single_slice.py`).

The development shallowly embeds the `convert` pipeline: the tiled copy
loop, the per-level destination-array creation, the OME-Zarr multiscale
metadata builder, the output-path resolution, and the nifti-header branch.
Helpers that live in the repository but outside `src/`
(`utils.math.ceildiv`, `utils.j2k.WrappedJ2K`, `utils.orientation`) are
modelled from the specification and marked as such in their doc comments.
-/

namespace LincConvert

/-! ## The tiled copy loop (single_slice.py, lines 121-144)

An array plane is modelled as a map from spatial indices to an optional
value (`none` = never written; the destination is created with
`fill_value: None`).  A value of the element type stands for the full
(channel-complete) content at one spatial position, since the leading
`...` slice keeps channel dimensions whole in both source and destination.
-/

/-- Modelled from the spec: `linc_convert.utils.math.ceildiv` is not under
`src/`; the spec prescribes `ceil(dimSize / maxLoad)` tiles per axis. -/
def ceildiv (a b : Nat) : Nat := (a + b - 1) / b

/-- The spatial region written by tile `(i, j)` of the tiled loop:
rows `i*ml : min((i+1)*ml, H)` and columns `j*ml : min((j+1)*ml, W)`,
exactly the slice bounds of the tiled assignment (lines 135-143). -/
def coversTile (ml H W i j r c : Nat) : Prop :=
  i * ml ≤ r ∧ r < min ((i + 1) * ml) H ∧ j * ml ≤ c ∧ c < min ((j + 1) * ml) W

instance decCoversTile (ml H W i j r c : Nat) : Decidable (coversTile ml H W i j r c) := by
  unfold coversTile
  exact inferInstance

/-- One tiled assignment `array[..., i*ml:min((i+1)*ml, H), j*ml:min((j+1)*ml, W)]
= subdat[same]` (lines 135-143). -/
def tileWrite {α : Type} (src : Nat → Nat → α) (ml H W : Nat)
    (dst : Nat → Nat → Option α) (i j : Nat) : Nat → Nat → Option α :=
  fun r c => if coversTile ml H W i j r c then some (src r c) else dst r c

/-- The whole-plane assignment `array[...] = subdat[...]` (line 128) on an
array of spatial shape `H × W`: every in-bounds element receives the source
value. -/
def wholeCopy {α : Type} (src : Nat → Nat → α) (H W : Nat) : Nat → Nat → Option α :=
  fun r c => if r < H ∧ c < W then some (src r c) else none

/-- The doubly nested tile loop `for i in range(ni): for j in range(nj): ...`
with `ni = ceildiv(H, ml)` and `nj = ceildiv(W, ml)` (lines 130-143),
starting from the freshly created (unwritten) array. -/
def tiledCopy {α : Type} (src : Nat → Nat → α) (ml H W : Nat) : Nat → Nat → Option α :=
  (List.range (ceildiv H ml)).foldl
    (fun d i => (List.range (ceildiv W ml)).foldl
      (fun d' j => tileWrite src ml H W d' i j) d)
    (fun _ _ => none)

/-- The dispatch of line 127: whole-plane copy when `max_load is None` or
both spatial dims are `< max_load`, tiled copy otherwise. -/
def copyLevel {α : Type} (src : Nat → Nat → α) (maxLoad : Option Nat) (H W : Nat) :
    Nat → Nat → Option α :=
  match maxLoad with
  | none => wholeCopy src H W
  | some ml => if H < ml ∧ W < ml then wholeCopy src H W else tiledCopy src ml H W

theorem tileWrite_apply {α : Type} (src : Nat → Nat → α) (ml H W : Nat)
    (dst : Nat → Nat → Option α) (i j r c : Nat) :
    tileWrite src ml H W dst i j r c
      = if coversTile ml H W i j r c then some (src r c) else dst r c := rfl

theorem innerFold_apply {α : Type} (src : Nat → Nat → α) (ml H W i : Nat)
    (L : List Nat) (dst : Nat → Nat → Option α) (r c : Nat) :
    (L.foldl (fun d' j => tileWrite src ml H W d' i j) dst) r c
      = if ∃ j, j ∈ L ∧ coversTile ml H W i j r c then some (src r c) else dst r c := by
  induction L generalizing dst with
  | nil => simp
  | cons j0 L ih =>
    rw [List.foldl_cons, ih]
    by_cases hj : coversTile ml H W i j0 r c
    · have hex : ∃ j, j ∈ j0 :: L ∧ coversTile ml H W i j r c :=
        ⟨j0, List.mem_cons_self _ _, hj⟩
      rw [if_pos hex]
      by_cases hL : ∃ j, j ∈ L ∧ coversTile ml H W i j r c
      · rw [if_pos hL]
      · rw [if_neg hL, tileWrite_apply, if_pos hj]
    · have hiff : (∃ j, j ∈ L ∧ coversTile ml H W i j r c)
          ↔ (∃ j, j ∈ j0 :: L ∧ coversTile ml H W i j r c) := by
        constructor
        · rintro ⟨j, hjL, hcov⟩
          exact ⟨j, List.mem_cons_of_mem _ hjL, hcov⟩
        · rintro ⟨j, hjL, hcov⟩
          rcases List.mem_cons.mp hjL with h | h
          · exact absurd (h ▸ hcov) hj
          · exact ⟨j, h, hcov⟩
      rw [tileWrite_apply, if_neg hj]
      by_cases hL : ∃ j, j ∈ L ∧ coversTile ml H W i j r c
      · rw [if_pos hL, if_pos (hiff.mp hL)]
      · rw [if_neg hL, if_neg (fun h => hL (hiff.mpr h))]

theorem outerFold_apply {α : Type} (src : Nat → Nat → α) (ml H W nj : Nat)
    (L : List Nat) (dst : Nat → Nat → Option α) (r c : Nat) :
    (L.foldl (fun d i => (List.range nj).foldl
        (fun d' j => tileWrite src ml H W d' i j) d) dst) r c
      = if ∃ i, i ∈ L ∧ ∃ j, j ∈ List.range nj ∧ coversTile ml H W i j r c
        then some (src r c) else dst r c := by
  induction L generalizing dst with
  | nil => simp
  | cons i0 L ih =>
    rw [List.foldl_cons, ih, innerFold_apply]
    by_cases hi : ∃ j, j ∈ List.range nj ∧ coversTile ml H W i0 j r c
    · have hex : ∃ i, i ∈ i0 :: L ∧ ∃ j, j ∈ List.range nj ∧ coversTile ml H W i j r c :=
        ⟨i0, List.mem_cons_self _ _, hi⟩
      rw [if_pos hi]
      by_cases hL : ∃ i, i ∈ L ∧ ∃ j, j ∈ List.range nj ∧ coversTile ml H W i j r c
      · rw [if_pos hL, if_pos hex]
      · rw [if_neg hL, if_pos hex]
    · have hiff : (∃ i, i ∈ L ∧ ∃ j, j ∈ List.range nj ∧ coversTile ml H W i j r c)
          ↔ (∃ i, i ∈ i0 :: L ∧ ∃ j, j ∈ List.range nj ∧ coversTile ml H W i j r c) := by
        constructor
        · rintro ⟨i, hiL, hcov⟩
          exact ⟨i, List.mem_cons_of_mem _ hiL, hcov⟩
        · rintro ⟨i, hiL, hcov⟩
          rcases List.mem_cons.mp hiL with h | h
          · exact absurd (h ▸ hcov) hi
          · exact ⟨i, h, hcov⟩
      rw [if_neg hi]
      by_cases hL : ∃ i, i ∈ L ∧ ∃ j, j ∈ List.range nj ∧ coversTile ml H W i j r c
      · rw [if_pos hL, if_pos (hiff.mp hL)]
      · rw [if_neg hL, if_neg (fun h => hL (hiff.mpr h))]

theorem tiledCopy_apply {α : Type} (src : Nat → Nat → α) (ml H W r c : Nat) :
    tiledCopy src ml H W r c
      = if ∃ i, i ∈ List.range (ceildiv H ml) ∧
            ∃ j, j ∈ List.range (ceildiv W ml) ∧ coversTile ml H W i j r c
        then some (src r c) else none := by
  unfold tiledCopy
  rw [outerFold_apply]

theorem div_tile_bounds (ml : Nat) (hml : 0 < ml) (H r : Nat) (hr : r < H) :
    (r / ml) * ml ≤ r ∧ r < min ((r / ml + 1) * ml) H ∧ r / ml < ceildiv H ml := by
  refine ⟨Nat.div_mul_le_self r ml, ?_, ?_⟩
  · have hmod : r % ml < ml := Nat.mod_lt r hml
    have hdm : ml * (r / ml) + r % ml = r := Nat.div_add_mod r ml
    have h1 : r < (r / ml + 1) * ml := by
      have : r < ml * (r / ml) + ml := by omega
      calc r < ml * (r / ml) + ml := this
        _ = (r / ml + 1) * ml := by ring
    exact Nat.lt_min.mpr ⟨h1, hr⟩
  · have hle : r + ml ≤ H + ml - 1 := by omega
    have h2 : (r + ml) / ml ≤ (H + ml - 1) / ml := Nat.div_le_div_right hle
    have h3 : (r + ml) / ml = r / ml + 1 := Nat.add_div_right r hml
    unfold ceildiv
    omega

theorem tile_index_unique (ml i r : Nat)
    (h1 : i * ml ≤ r) (h2 : r < (i + 1) * ml) : i = r / ml :=
  (Nat.div_eq_of_lt_le h1 h2).symm

theorem tiledCopy_eq_whole {α : Type} (src : Nat → Nat → α) (ml : Nat)
    (hml : 0 < ml) (H W : Nat) :
    tiledCopy src ml H W = wholeCopy src H W := by
  funext r c
  rw [tiledCopy_apply]
  unfold wholeCopy
  by_cases hrc : r < H ∧ c < W
  · obtain ⟨hr, hc⟩ := hrc
    obtain ⟨hr1, hr2, hr3⟩ := div_tile_bounds ml hml H r hr
    obtain ⟨hc1, hc2, hc3⟩ := div_tile_bounds ml hml W c hc
    have hcov : coversTile ml H W (r / ml) (c / ml) r c := by
      unfold coversTile
      exact ⟨hr1, hr2, hc1, hc2⟩
    rw [if_pos ⟨r / ml, List.mem_range.mpr hr3,
      c / ml, List.mem_range.mpr hc3, hcov⟩, if_pos ⟨hr, hc⟩]
  · rw [if_neg hrc, if_neg ?_]
    rintro ⟨i, _, j, _, hcov⟩
    unfold coversTile at hcov
    obtain ⟨_, hrm, _, hcm⟩ := hcov
    exact hrc ⟨lt_of_lt_of_le hrm (min_le_right _ _),
      lt_of_lt_of_le hcm (min_le_right _ _)⟩

/-- C1: for every codestream level (any source plane and spatial shape) and
every setting of `max_load` (any positive integer, or unset/`None`), the
array content produced by the copy dispatch is identical to the content of a
single whole-plane copy, and the tiles of the tiled loop cover each in-bounds
spatial index exactly once. -/
theorem tiling_equivalence {α : Type} (src : Nat → Nat → α) (ml H W : Nat)
    (hml : 0 < ml) :
    copyLevel src (some ml) H W = wholeCopy src H W ∧
    copyLevel src none H W = wholeCopy src H W ∧
    (∀ r c, r < H → c < W →
      ∃! p : Nat × Nat, p.1 < ceildiv H ml ∧ p.2 < ceildiv W ml ∧
        coversTile ml H W p.1 p.2 r c) := by
  refine ⟨?_, rfl, ?_⟩
  · show (if H < ml ∧ W < ml then wholeCopy src H W else tiledCopy src ml H W)
      = wholeCopy src H W
    by_cases hsmall : H < ml ∧ W < ml
    · rw [if_pos hsmall]
    · rw [if_neg hsmall]
      exact tiledCopy_eq_whole src ml hml H W
  · intro r c hr hc
    obtain ⟨hr1, hr2, hr3⟩ := div_tile_bounds ml hml H r hr
    obtain ⟨hc1, hc2, hc3⟩ := div_tile_bounds ml hml W c hc
    have hcov : coversTile ml H W (r / ml) (c / ml) r c := by
      unfold coversTile
      exact ⟨hr1, hr2, hc1, hc2⟩
    refine ⟨(r / ml, c / ml), ⟨hr3, hc3, hcov⟩, ?_⟩
    rintro ⟨i, j⟩ ⟨_, _, hcov2⟩
    unfold coversTile at hcov2
    obtain ⟨hi1, hi2, hj1, hj2⟩ := hcov2
    have hieq : i = r / ml :=
      tile_index_unique ml i r hi1 (lt_of_lt_of_le hi2 (min_le_left _ _))
    have hjeq : j = c / ml :=
      tile_index_unique ml j c hj1 (lt_of_lt_of_le hj2 (min_le_left _ _))
    simp [hieq, hjeq]

/-- Witness for C1 at `ml = 2`, a `3 × 5` plane. -/
theorem tiling_equivalence_witness :
    0 < 2 ∧
    (copyLevel (fun r c => r * 10 + c) (some 2) 3 5
        = wholeCopy (fun r c => r * 10 + c) 3 5 ∧
     copyLevel (fun r c => r * 10 + c) none 3 5
        = wholeCopy (fun r c => r * 10 + c) 3 5 ∧
     (∀ r c, r < 3 → c < 5 →
       ∃! p : Nat × Nat, p.1 < ceildiv 3 2 ∧ p.2 < ceildiv 5 2 ∧
         coversTile 2 3 5 p.1 p.2 r c)) :=
  ⟨by decide, tiling_equivalence (fun r c => r * 10 + c) 2 3 5 (by decide)⟩

/-! ## Output-path resolution (single_slice.py, lines 92-96)

`os.path.splitext` is Python standard library; it is modelled after
CPython's `genericpath._splitext` with `sep = '/'`, no `altsep`,
`extsep = '.'`: the extension begins at the last dot of the final path
component, unless every character between the component start and that dot
is itself a dot (leading dots are not an extension). -/

/-- Index of the last occurrence of `c` in `l`, if any. -/
def lastIdxOf (l : List Char) (c : Char) : Option Nat :=
  match l.reverse.findIdx? (fun x => x = c) with
  | none => none
  | some k => some (l.length - 1 - k)

/-- The stem part of CPython `os.path.splitext`: the input with its
extension removed. -/
def splitextStem (s : String) : String :=
  let p := s.data
  let sepI : Int := match lastIdxOf p '/' with | none => -1 | some k => (k : Int)
  let dotI : Int := match lastIdxOf p '.' with | none => -1 | some k => (k : Int)
  if sepI < dotI then
    let start := (sepI + 1).toNat
    let dotN := dotI.toNat
    if (List.range (dotN - start)).any (fun k => p.getD (start + k) '.' != '.') then
      String.mk (p.take dotN)
    else s
  else s

/-- Python `str.endswith`: the candidate suffix equals the tail of the
string of the suffix's length. -/
def endsWithStr (s suffix : String) : Bool :=
  decide (s.data.drop (s.data.length - suffix.data.length) = suffix.data)

/-- Lines 92-94 of `convert`: when `out` is falsy (None or the empty
string), default it to the input path with its extension replaced by
`.nii.zarr` (if `nii` was passed) or `.ome.zarr`. -/
def resolvedPath (inp : String) (out : Option String) (nii : Bool) : String :=
  match out with
  | none => splitextStem inp ++ (if nii then ".nii.zarr" else ".ome.zarr")
  | some s =>
    if s = "" then splitextStem inp ++ (if nii then ".nii.zarr" else ".ome.zarr")
    else s

/-- Lines 92-96 of `convert`: the resolved `(out, nii)` pair — the `nii`
flag is forced whenever the output path ends in `.nii.zarr` (line 96). -/
def resolveOut (inp : String) (out : Option String) (nii : Bool) : String × Bool :=
  (resolvedPath inp out nii,
   nii || endsWithStr (resolvedPath inp out nii) ".nii.zarr")

/-! ## Orientation and affine helpers

`linc_convert.utils.orientation` is repository code that is not under
`src/`; both functions below are modelled from the specification. -/

/-- A 4x4 homogeneous affine over ℚ, kept as its 3x3 linear block plus a
translation column. -/
structure Affine where
  lin : Fin 3 → Fin 3 → ℚ
  trans : Fin 3 → ℚ

/-- Application of an affine to a (voxel) coordinate vector. -/
def affineApply (a : Affine) (v : Fin 3 → ℚ) : Fin 3 → ℚ :=
  fun r => a.lin r 0 * v 0 + a.lin r 1 * v 1 + a.lin r 2 * v 2 + a.trans r

/-- Modelled from the spec: each orientation letter designates a signed
anatomical axis in RAS space. -/
def letterVec (c : Char) : Option (Fin 3 × ℚ) :=
  if c = 'R' then some (0, 1)
  else if c = 'L' then some (0, -1)
  else if c = 'A' then some (1, 1)
  else if c = 'P' then some (1, -1)
  else if c = 'S' then some (2, 1)
  else if c = 'I' then some (2, -1)
  else none

/-- Modelled from the spec: the named orientation aliases
`coronal = LI`, `axial = LP`, `sagittal = PI`. -/
def expandAlias (s : String) : String :=
  if s = "coronal" then "LI"
  else if s = "axial" then "LP"
  else if s = "sagittal" then "PI"
  else s

/-- The anatomical axis used by neither in-plane letter. -/
def thirdAxis (a b : Fin 3) : Fin 3 :=
  ⟨(3 - a.val - b.val) % 3, Nat.mod_lt _ (by omega)⟩

/-- Modelled from the spec: `linc_convert.utils.orientation.orientation_to_affine`
(not under `src/`).  A 2-letter code (after alias expansion) maps to a 4x4
affine whose first column is the first letter's signed axis scaled by the
in-plane voxel width, second column the second letter's signed axis scaled
by the voxel height, third column the remaining axis scaled by the slice
thickness; translation starts at zero.  An unrecognized code is a fatal
configuration error, modelled as `none`. -/
def orientation_to_affine (orient : String) (vxw vxh thickness : ℚ) : Option Affine :=
  match (expandAlias orient).data with
  | [c1, c2] =>
    match letterVec c1, letterVec c2 with
    | some av, some bv =>
      if av.1 = bv.1 then none
      else some
        { lin := fun r c =>
            if c = 0 then (if r = av.1 then av.2 * vxw else 0)
            else if c = 1 then (if r = bv.1 then bv.2 * vxh else 0)
            else (if r = thirdAxis av.1 bv.1 then thickness else 0)
        , trans := fun _ => 0 }
    | _, _ => none
  | _ => none

/-- Modelled from the spec: `linc_convert.utils.orientation.center_affine`
(not under `src/`).  Recomputes the affine's translation so that the voxel
at the geometric center of the 2-D field of view (the first two entries of
the depth-ordered shape) maps to world origin; the linear block is kept. -/
def center_affine (a : Affine) (shape : List Nat) : Affine :=
  let c : Fin 3 → ℚ := fun k =>
    if k = 0 then ((shape.getD 0 0 : ℚ) - 1) / 2
    else if k = 1 then ((shape.getD 1 0 : ℚ) - 1) / 2
    else 0
  { lin := a.lin
  , trans := fun r => -(a.lin r 0 * c 0 + a.lin r 1 * c 1 + a.lin r 2 * c 2) }

/-! ## The destination store and the `convert` pipeline -/

/-- The conversion inputs: the CLI arguments of `convert` together with the
opaque collaborators' observable data (codestream shape and levels, pixel
sizes, serialized-header byte length).

`channels` models both `j2k.shape[2:]` (glymur keeps sample components as
trailing dimensions) and, per the spec's data model, the leading channel
dimensions of the channel-first level views produced by
`linc_convert.utils.j2k.WrappedJ2K` (repository code not under `src/`,
modelled from the spec: the level view's shape is the channel dimensions
followed by the level's decimated height and width).
`compressorOptParsed` is the result of `ast.literal_eval(compressor_opt)`,
`none` meaning the literal is unparseable and the call raises.
`headerLen` is the byte length of the serialized `Nifti2Header`. -/
structure ConvInput where
  inp : String
  out : Option String
  chunk : Nat
  compressorName : String
  compressorOptParsed : Option Unit
  maxLoad : Option Nat
  nii : Bool
  orientation : String
  center : Bool
  thickness : Option ℚ
  channels : List Nat
  spatialShape : Nat → Nat × Nat
  nblevel : Nat
  vxw : ℚ
  vxh : ℚ
  dtypeStr : String
  headerLen : Nat

/-- Modelled from the spec: the shape of the `WrappedJ2K` level view —
channel dimensions first, then the level's spatial height and width. -/
def levelShape (i : ConvInput) (l : Nat) : List Nat :=
  i.channels ++ [(i.spatialShape l).1, (i.spatialShape l).2]

/-- A created zarr array's recorded attributes. -/
structure ZArray where
  shape : List Nat
  chunks : List Nat
  compressor : Option String
  dtype : String
  order : String
deriving DecidableEq

/-- zarr v2 `Group.create_dataset`: with `data=None` the array gets the
`shape` keyword; when `data` is given, `zarr.creation.array` overrides the
`shape` keyword with the data's own shape. -/
def create_dataset (shapeArg : List Nat) (dataShape : Option (List Nat))
    (chunks : List Nat) (compressor : Option String) (dtype : String) : ZArray :=
  { shape := dataShape.getD shapeArg
  , chunks := chunks
  , compressor := compressor
  , dtype := dtype
  , order := "F" }

/-- One OME-Zarr axis record. -/
structure Axis where
  name : String
  typ : String
  unit : Option String
deriving DecidableEq

/-- One entry of the multiscale `datasets` list: the level path and its
scale/translation coordinate transformations. -/
structure MultiDataset where
  path : String
  scale : List ℚ
  translation : List ℚ
deriving DecidableEq

/-- The multiscale descriptor attached to the group attributes. -/
structure Multiscale where
  version : String
  axes : List Axis
  datasets : List MultiDataset
  typ : String
  name : String
  globalScale : List ℚ
deriving DecidableEq

/-- The destination store: the level arrays in creation order (keyed by
their decimal string), the group attributes, and the optional nifti header
array. -/
structure Store where
  arrays : List (String × ZArray)
  attrs : Option Multiscale
  nifti : Option (String × ZArray)
deriving DecidableEq

def Store.empty : Store := { arrays := [], attrs := none, nifti := none }

/-- Lines 109-116 and 125: the per-level destination array, created with the
level view's shape and chunking `list(j2k.shape[2:]) + [chunk, chunk]`. -/
def mkLevelArray (i : ConvInput) (l : Nat) : ZArray :=
  create_dataset (levelShape i l) none (i.channels ++ [i.chunk, i.chunk])
    (some i.compressorName) i.dtypeStr

/-- Lines 121-125: one array per level, keyed by the decimal level index, in
increasing level order. -/
def mkArrays (i : ConvInput) : List (String × ZArray) :=
  (List.range i.nblevel).map (fun l => (toString l, mkLevelArray i l))

/-- Lines 148-159: the axis list — `y` and `x` spatial axes in micrometers,
prefixed by a channel axis when the codestream has channel dimensions. -/
def mkAxes (i : ConvInput) : List Axis :=
  let base := [Axis.mk "y" "space" (some "micrometer"),
               Axis.mk "x" "space" (some "micrometer")]
  if i.channels.length ≠ 0 then Axis.mk "c" "channel" none :: base else base

/-- Lines 161-187: the dataset entry for level `n` — path `str(n)`, scale
`[1]*has_channel + [(H0/Hn)*vxh, (W0/Wn)*vxw]` and translation
`[0]*has_channel + [(H0/Hn - 1)*vxh*0.5, (W0/Wn - 1)*vxw*0.5]`. -/
def mkDataset (i : ConvInput) (n : Nat) : MultiDataset :=
  let s0 := i.spatialShape 0
  let s := i.spatialShape n
  { path := toString n
  , scale := List.replicate i.channels.length 1 ++
      [((s0.1 : ℚ) / (s.1 : ℚ)) * i.vxh, ((s0.2 : ℚ) / (s.2 : ℚ)) * i.vxw]
  , translation := List.replicate i.channels.length 0 ++
      [((s0.1 : ℚ) / (s.1 : ℚ) - 1) * i.vxh * (1 / 2),
       ((s0.2 : ℚ) / (s.2 : ℚ) - 1) * i.vxw * (1 / 2)] }

/-- Lines 148-194: the full multiscale descriptor. -/
def mkMultiscale (i : ConvInput) : Multiscale :=
  { version := "0.4"
  , axes := mkAxes i
  , datasets := (List.range i.nblevel).map (mkDataset i)
  , typ := "jpeg2000"
  , name := ""
  , globalScale := List.replicate (2 + i.channels.length) 1 }

/-- The store state after all levels are written and the multiscale
attributes are attached (end of line 194). -/
def baseStore (i : ConvInput) : Store :=
  { arrays := mkArrays i, attrs := some (mkMultiscale i), nifti := none }

/-- Lines 204-206: the data shape recorded in the nifti header — the
reversed level-0 shape, with two singleton dimensions spliced in at
position 2 when channel dimensions exist. -/
def niftiShape (i : ConvInput) : List Nat :=
  let s := (levelShape i 0).reverse
  if i.channels.length ≠ 0 then s.take 2 ++ [1, 1] ++ s.drop 2 else s

/-- Lines 217-226: the `"nifti"` dataset call — the `shape` keyword receives
the image shape, but the header bytes are passed as `data`, so the created
array is 1-D of the header's byte length; chunked as one chunk of that
length, uncompressed, bytes. -/
def mkNiftiArray (i : ConvInput) : ZArray :=
  create_dataset (niftiShape i) (some [i.headerLen]) [i.headerLen] none "|u1"

/-- The store state at the successful end of the nifti branch (line 226). -/
def finalStore (i : ConvInput) : Store :=
  { arrays := mkArrays i, attrs := some (mkMultiscale i)
  , nifti := some ("nifti", mkNiftiArray i) }

/-- A fatal configuration error (the embedding records which option). -/
inductive ConvError where
  | configError (opt : String)
deriving DecidableEq

/-- The `convert` pipeline of `single_slice.py` as a store transformer.
Errors carry the store contents already created when the exception is
raised: `ast.literal_eval` of the compressor options runs at lines 98-99,
before the group is even opened, while `orientation_to_affine` runs at line
207, after every level array and the multiscale attributes were written —
and only when the nifti variant was requested. -/
def convert (i : ConvInput) : Except (ConvError × Store) Store :=
  match i.compressorOptParsed with
  | none => .error (ConvError.configError "compressor_opt", Store.empty)
  | some _ =>
    if (resolveOut i.inp i.out i.nii).2 then
      match orientation_to_affine i.orientation i.vxw i.vxh (i.thickness.getD 1) with
      | none => .error (ConvError.configError "orientation", baseStore i)
      | some a =>
        let _affine := if i.center then center_affine a ((niftiShape i).take 2) else a
        .ok (finalStore i)
    else .ok (baseStore i)

theorem convert_ok_parts (i : ConvInput) (s : Store) (h : convert i = .ok s) :
    s.arrays = mkArrays i ∧ s.attrs = some (mkMultiscale i) := by
  unfold convert at h
  cases hco : i.compressorOptParsed with
  | none => rw [hco] at h; exact absurd h (by simp)
  | some v =>
    rw [hco] at h
    by_cases hn : (resolveOut i.inp i.out i.nii).2 = true
    · rw [if_pos hn] at h
      cases ha : orientation_to_affine i.orientation i.vxw i.vxh (i.thickness.getD 1) with
      | none => rw [ha] at h; exact absurd h (by simp)
      | some a =>
        rw [ha] at h
        simp only [Except.ok.injEq] at h
        rw [← h]
        exact ⟨rfl, rfl⟩
    · rw [if_neg hn] at h
      simp only [Except.ok.injEq] at h
      rw [← h]
      exact ⟨rfl, rfl⟩

theorem take_replicate_append {β : Type} (k : Nat) (b : β) (rest : List β) :
    (List.replicate k b ++ rest).take k = List.replicate k b := by
  have h := List.take_left (List.replicate k b) rest
  rwa [List.length_replicate] at h

/-! ## Concrete inputs used by witnesses and counterexamples -/

/-- A small concrete conversion input: 2 levels, no channel dimension,
spatial shapes (4,6) and (2,3), defaulted output path. -/
def sampleIn : ConvInput :=
  { inp := "a.jp2", out := none, chunk := 8, compressorName := "blosc"
  , compressorOptParsed := some (), maxLoad := some 16, nii := false
  , orientation := "coronal", center := true, thickness := none
  , channels := [], spatialShape := fun l => (4 / (l + 1), 6 / (l + 1))
  , nblevel := 2, vxw := 1 / 2, vxh := 1 / 3, dtypeStr := "|u1"
  , headerLen := 540 }

/-- Variant of `sampleIn` with one channel dimension of size 3. -/
def sampleChan : ConvInput := { sampleIn with channels := [3] }

/-- Variant of `sampleIn` with the nifti variant requested. -/
def sampleNii : ConvInput := { sampleIn with nii := true }

/-- Variant of `sampleIn` with the nifti variant requested and an unrecognized
orientation code, 1 level. -/
def badOrientIn : ConvInput :=
  { sampleIn with nii := true, orientation := "ZZ", nblevel := 1 }

/-- Variant of `sampleIn` with an unparseable compressor-options literal. -/
def badOptIn : ConvInput := { sampleIn with compressorOptParsed := none }

/-! ## Claim theorems -/

/-- C7: for every input path, when no output path is given (None or empty)
the output path is the input path with its extension replaced by
`.ome.zarr`, or by `.nii.zarr` when the nifti variant is requested; and the
nifti flag is forced true whenever the resolved output path ends in
`.nii.zarr`. -/
theorem output_path_default (inp : String) (out : Option String) (nii : Bool) :
    ((out = none ∨ out = some "") →
      (resolveOut inp out nii).1
        = splitextStem inp ++ (if nii then ".nii.zarr" else ".ome.zarr")) ∧
    (endsWithStr (resolveOut inp out nii).1 ".nii.zarr" = true →
      (resolveOut inp out nii).2 = true) := by
  constructor
  · rintro (rfl | rfl)
    · rfl
    · show resolvedPath inp (some "") nii = _
      simp [resolvedPath]
  · intro h
    show (nii || endsWithStr (resolvedPath inp out nii) ".nii.zarr") = true
    have h' : endsWithStr (resolvedPath inp out nii) ".nii.zarr" = true := h
    rw [h', Bool.or_true]

/-- Witness for C7: a defaulted output path and a given `.nii.zarr` path. -/
theorem output_path_default_witness :
    ((resolveOut "a.jp2" none false).1
        = splitextStem "a.jp2" ++ (if false then ".nii.zarr" else ".ome.zarr")) ∧
    (resolveOut "b.jp2" (some "o.nii.zarr") false).2 = true :=
  ⟨(output_path_default "a.jp2" none false).1 (Or.inl rfl),
   (output_path_default "b.jp2" (some "o.nii.zarr") false).2 (by decide)⟩

/-- C8: for every affine matrix and every field-of-view shape, applying the
centering adjustment twice yields the same affine as applying it once: the
recomputed translation depends only on the (unchanged) linear block and the
shape. -/
theorem center_affine_idempotent (a : Affine) (shape : List Nat) :
    center_affine (center_affine a shape) shape = center_affine a shape := rfl

/-- C2: for every successful conversion, every level `n` of the recorded
multiscale datasets satisfies scale = (H0/Hn * vxh, W0/Wn * vxw) and
translation = ((H0/Hn - 1) * vxh / 2, (W0/Wn - 1) * vxw / 2) on the spatial
components, and for n = 0 (with nonzero level-0 shape) the scale equals the
voxel size and the translation is zero. -/
theorem scale_translation_invariant (i : ConvInput) (s : Store)
    (h : convert i = .ok s) (ms : Multiscale) (hms : s.attrs = some ms)
    (n : Nat) (hn : n < i.nblevel)
    (h0 : (i.spatialShape 0).1 ≠ 0 ∧ (i.spatialShape 0).2 ≠ 0) :
    ms.datasets[n]? = some (mkDataset i n) ∧
    (mkDataset i n).scale
      = List.replicate i.channels.length 1 ++
          [(((i.spatialShape 0).1 : ℚ) / ((i.spatialShape n).1 : ℚ)) * i.vxh,
           (((i.spatialShape 0).2 : ℚ) / ((i.spatialShape n).2 : ℚ)) * i.vxw] ∧
    (mkDataset i n).translation
      = List.replicate i.channels.length 0 ++
          [((((i.spatialShape 0).1 : ℚ) / ((i.spatialShape n).1 : ℚ)) - 1) * i.vxh / 2,
           ((((i.spatialShape 0).2 : ℚ) / ((i.spatialShape n).2 : ℚ)) - 1) * i.vxw / 2] ∧
    (mkDataset i 0).scale
      = List.replicate i.channels.length 1 ++ [i.vxh, i.vxw] ∧
    (mkDataset i 0).translation
      = List.replicate i.channels.length 0 ++ [0, 0] := by
  obtain ⟨-, hattrs⟩ := convert_ok_parts i s h
  rw [hattrs] at hms
  injection hms with hms
  subst hms
  have hd1 : (((i.spatialShape 0).1 : ℚ) / ((i.spatialShape 0).1 : ℚ)) = 1 :=
    div_self (Nat.cast_ne_zero.mpr h0.1)
  have hd2 : (((i.spatialShape 0).2 : ℚ) / ((i.spatialShape 0).2 : ℚ)) = 1 :=
    div_self (Nat.cast_ne_zero.mpr h0.2)
  refine ⟨?_, rfl, ?_, ?_, ?_⟩
  · show ((List.range i.nblevel).map (mkDataset i))[n]? = some (mkDataset i n)
    rw [List.getElem?_map, List.getElem?_range hn]
    rfl
  · show List.replicate i.channels.length 0 ++
        [_ * i.vxh * (1 / 2), _ * i.vxw * (1 / 2)] = _
    rw [mul_one_div, mul_one_div]
  · show List.replicate i.channels.length 1 ++ [_ * i.vxh, _ * i.vxw] = _
    rw [hd1, hd2, one_mul, one_mul]
  · show List.replicate i.channels.length 0 ++
        [(_ - 1) * i.vxh * (1 / 2), (_ - 1) * i.vxw * (1 / 2)] = _
    rw [hd1, hd2]
    norm_num

/-- Witness for C2 at `sampleIn`, level 1 (shapes (4,6) and (2,3)). -/
theorem scale_translation_invariant_witness :
    (mkMultiscale sampleIn).datasets[1]? = some (mkDataset sampleIn 1) ∧
    (mkDataset sampleIn 1).scale
      = List.replicate sampleIn.channels.length 1 ++
          [(((sampleIn.spatialShape 0).1 : ℚ) / ((sampleIn.spatialShape 1).1 : ℚ)) * sampleIn.vxh,
           (((sampleIn.spatialShape 0).2 : ℚ) / ((sampleIn.spatialShape 1).2 : ℚ)) * sampleIn.vxw] ∧
    (mkDataset sampleIn 1).translation
      = List.replicate sampleIn.channels.length 0 ++
          [((((sampleIn.spatialShape 0).1 : ℚ) / ((sampleIn.spatialShape 1).1 : ℚ)) - 1) * sampleIn.vxh / 2,
           ((((sampleIn.spatialShape 0).2 : ℚ) / ((sampleIn.spatialShape 1).2 : ℚ)) - 1) * sampleIn.vxw / 2] ∧
    (mkDataset sampleIn 0).scale
      = List.replicate sampleIn.channels.length 1 ++ [sampleIn.vxh, sampleIn.vxw] ∧
    (mkDataset sampleIn 0).translation
      = List.replicate sampleIn.channels.length 0 ++ [0, 0] :=
  scale_translation_invariant sampleIn (baseStore sampleIn) rfl
    (mkMultiscale sampleIn) rfl 1 (by decide) (by decide)

/-- C4: for every level of a successful conversion, the destination array is
created with the level view's exact shape, and its chunk shape uses the
configured chunk size on the last two (spatial) components while every
leading channel dimension keeps its full extent as a single chunk. -/
theorem level_array_shape_chunks (i : ConvInput) (s : Store)
    (h : convert i = .ok s) (l : Nat) (hl : l < i.nblevel) :
    s.arrays[l]? = some (toString l, mkLevelArray i l) ∧
    (mkLevelArray i l).shape = levelShape i l ∧
    (mkLevelArray i l).chunks
      = (levelShape i l).take i.channels.length ++ [i.chunk, i.chunk] := by
  obtain ⟨harr, -⟩ := convert_ok_parts i s h
  refine ⟨?_, rfl, ?_⟩
  · rw [harr]
    show ((List.range i.nblevel).map
      (fun l => (toString l, mkLevelArray i l)))[l]? = _
    rw [List.getElem?_map, List.getElem?_range hl]
    rfl
  · show i.channels ++ [i.chunk, i.chunk] = _
    rw [levelShape, List.take_left]

/-- Witness for C4 at `sampleChan`, level 1. -/
theorem level_array_shape_chunks_witness :
    (baseStore sampleChan).arrays[1]?
      = some (toString 1, mkLevelArray sampleChan 1) ∧
    (mkLevelArray sampleChan 1).shape = levelShape sampleChan 1 ∧
    (mkLevelArray sampleChan 1).chunks
      = (levelShape sampleChan 1).take sampleChan.channels.length ++
          [sampleChan.chunk, sampleChan.chunk] :=
  level_array_shape_chunks sampleChan (baseStore sampleChan) rfl 1 (by decide)

/-- C9: for every successful conversion, the multiscale descriptor has
exactly one dataset entry per level, in increasing level order, and entry n's
path equals the decimal string key of the array created for level n. -/
theorem datasets_one_per_level (i : ConvInput) (s : Store)
    (h : convert i = .ok s) (ms : Multiscale) (hms : s.attrs = some ms) :
    ms.datasets.length = i.nblevel ∧ s.arrays.length = i.nblevel ∧
    (∀ n, n < i.nblevel →
      Option.map MultiDataset.path ms.datasets[n]? = some (toString n) ∧
      Option.map Prod.fst s.arrays[n]? = some (toString n)) := by
  obtain ⟨harr, hattrs⟩ := convert_ok_parts i s h
  rw [hattrs] at hms
  injection hms with hms
  subst hms
  refine ⟨?_, ?_, ?_⟩
  · show ((List.range i.nblevel).map (mkDataset i)).length = i.nblevel
    rw [List.length_map, List.length_range]
  · rw [harr]
    show ((List.range i.nblevel).map
      (fun l => (toString l, mkLevelArray i l))).length = i.nblevel
    rw [List.length_map, List.length_range]
  · intro n hn
    constructor
    · show Option.map MultiDataset.path
        ((List.range i.nblevel).map (mkDataset i))[n]? = _
      rw [List.getElem?_map, List.getElem?_range hn]
      rfl
    · rw [harr]
      show Option.map Prod.fst ((List.range i.nblevel).map
        (fun l => (toString l, mkLevelArray i l)))[n]? = _
      rw [List.getElem?_map, List.getElem?_range hn]
      rfl

/-- Witness for C9 at `sampleIn`. -/
theorem datasets_one_per_level_witness :
    (mkMultiscale sampleIn).datasets.length = sampleIn.nblevel ∧
    (baseStore sampleIn).arrays.length = sampleIn.nblevel ∧
    (∀ n, n < sampleIn.nblevel →
      Option.map MultiDataset.path (mkMultiscale sampleIn).datasets[n]?
        = some (toString n) ∧
      Option.map Prod.fst (baseStore sampleIn).arrays[n]? = some (toString n)) :=
  datasets_one_per_level sampleIn (baseStore sampleIn) rfl (mkMultiscale sampleIn) rfl

/-- C10: for every successful conversion of a codestream with channel
dimensions, every recorded per-level transformation carries scale 1 and
translation 0 in each channel component. -/
theorem channel_components_identity (i : ConvInput) (_hc : i.channels ≠ [])
    (s : Store) (h : convert i = .ok s) (ms : Multiscale)
    (hms : s.attrs = some ms) (n : Nat) (hn : n < i.nblevel) :
    ms.datasets[n]? = some (mkDataset i n) ∧
    (mkDataset i n).scale.take i.channels.length
      = List.replicate i.channels.length (1 : ℚ) ∧
    (mkDataset i n).translation.take i.channels.length
      = List.replicate i.channels.length (0 : ℚ) := by
  obtain ⟨-, hattrs⟩ := convert_ok_parts i s h
  rw [hattrs] at hms
  injection hms with hms
  subst hms
  refine ⟨?_, ?_, ?_⟩
  · show ((List.range i.nblevel).map (mkDataset i))[n]? = some (mkDataset i n)
    rw [List.getElem?_map, List.getElem?_range hn]
    rfl
  · exact take_replicate_append i.channels.length 1 _
  · exact take_replicate_append i.channels.length 0 _

/-- Witness for C10 at `sampleChan`, level 0. -/
theorem channel_components_identity_witness :
    (mkMultiscale sampleChan).datasets[0]? = some (mkDataset sampleChan 0) ∧
    (mkDataset sampleChan 0).scale.take sampleChan.channels.length
      = List.replicate sampleChan.channels.length (1 : ℚ) ∧
    (mkDataset sampleChan 0).translation.take sampleChan.channels.length
      = List.replicate sampleChan.channels.length (0 : ℚ) :=
  channel_components_identity sampleChan (by decide)
    (baseStore sampleChan) rfl (mkMultiscale sampleChan) rfl 0 (by decide)

/-- C3: when the nifti variant is requested and the conversion succeeds, the
serialized volume header is persisted under the reserved key "nifti" as a
1-D byte array whose shape and chunk equal exactly the header's byte
length, with no compressor (zarr overrides the passed image `shape` keyword
with the 1-D data shape). -/
theorem nifti_header_array (i : ConvInput) (s : Store)
    (h : convert i = .ok s) (hreq : (resolveOut i.inp i.out i.nii).2 = true) :
    s.nifti = some ("nifti", mkNiftiArray i) ∧
    (mkNiftiArray i).shape = [i.headerLen] ∧
    (mkNiftiArray i).chunks = [i.headerLen] ∧
    (mkNiftiArray i).compressor = none ∧
    (mkNiftiArray i).dtype = "|u1" := by
  unfold convert at h
  cases hco : i.compressorOptParsed with
  | none => rw [hco] at h; exact absurd h (by simp)
  | some v =>
    rw [hco, if_pos hreq] at h
    cases ha : orientation_to_affine i.orientation i.vxw i.vxh (i.thickness.getD 1) with
    | none => rw [ha] at h; exact absurd h (by simp)
    | some a =>
      rw [ha] at h
      simp only [Except.ok.injEq] at h
      rw [← h]
      exact ⟨rfl, rfl, rfl, rfl, rfl⟩

/-- Witness for C3 at `sampleNii`. -/
theorem nifti_header_array_witness :
    (finalStore sampleNii).nifti = some ("nifti", mkNiftiArray sampleNii) ∧
    (mkNiftiArray sampleNii).shape = [sampleNii.headerLen] ∧
    (mkNiftiArray sampleNii).chunks = [sampleNii.headerLen] ∧
    (mkNiftiArray sampleNii).compressor = none ∧
    (mkNiftiArray sampleNii).dtype = "|u1" :=
  nifti_header_array sampleNii (finalStore sampleNii) rfl rfl

/-- C5 counterexample: at `badOrientIn` (valid compressor options, nifti
variant requested, unrecognized orientation code "ZZ") the conversion does
raise a configuration error, but only after the level array and the
multiscale attributes have been written — the claim that no array is
created prior to the error is false. -/
theorem config_error_counterexample :
    convert badOrientIn
      = .error (ConvError.configError "orientation", baseStore badOrientIn) ∧
    (baseStore badOrientIn).arrays ≠ [] := by
  constructor
  · rfl
  · show mkArrays badOrientIn ≠ []
    decide

/-- C5 (amended): an unparseable compressor-options literal aborts before
the destination is even opened (no array created); an unrecognized
orientation code aborts only when the nifti variant is requested, and the
error is raised after every level array and the multiscale attributes have
been written; without the nifti variant the orientation is never examined
and the conversion succeeds. -/
theorem config_error_write_boundary (i : ConvInput) :
    (i.compressorOptParsed = none →
      convert i = .error (ConvError.configError "compressor_opt", Store.empty) ∧
      Store.empty.arrays = []) ∧
    (i.compressorOptParsed ≠ none →
      (resolveOut i.inp i.out i.nii).2 = true →
      orientation_to_affine i.orientation i.vxw i.vxh (i.thickness.getD 1) = none →
      convert i = .error (ConvError.configError "orientation", baseStore i) ∧
      (baseStore i).arrays.length = i.nblevel ∧
      (baseStore i).attrs = some (mkMultiscale i)) ∧
    (i.compressorOptParsed ≠ none →
      (resolveOut i.inp i.out i.nii).2 = false →
      convert i = .ok (baseStore i)) := by
  refine ⟨?_, ?_, ?_⟩
  · intro hco
    refine ⟨?_, rfl⟩
    unfold convert
    rw [hco]
  · intro hco hreq ha
    cases hv : i.compressorOptParsed with
    | none => exact absurd hv hco
    | some v =>
      refine ⟨?_, ?_, rfl⟩
      · unfold convert
        rw [hv, if_pos hreq, ha]
      · show (mkArrays i).length = i.nblevel
        rw [mkArrays, List.length_map, List.length_range]
  · intro hco hreq
    cases hv : i.compressorOptParsed with
    | none => exact absurd hv hco
    | some v =>
      unfold convert
      rw [hv, if_neg (by rw [hreq]; exact Bool.false_ne_true)]

/-- Witness for C5 (amended): the unparseable-options case at `badOptIn` and
the late-orientation-error case at `badOrientIn`. -/
theorem config_error_write_boundary_witness :
    (convert badOptIn
        = .error (ConvError.configError "compressor_opt", Store.empty) ∧
      Store.empty.arrays = []) ∧
    (convert badOrientIn
        = .error (ConvError.configError "orientation", baseStore badOrientIn) ∧
      (baseStore badOrientIn).arrays.length = badOrientIn.nblevel ∧
      (baseStore badOrientIn).attrs = some (mkMultiscale badOrientIn)) :=
  ⟨(config_error_write_boundary badOptIn).1 rfl,
   (config_error_write_boundary badOrientIn).2.1 (by decide) rfl rfl⟩

/-- C6 counterexample: at `sampleChan` (channel dimension 3, level-0 spatial
shape (4,6)) the header data shape recorded by the code is [6,4,1,1,3],
not the level-0 shape [3,4,6] with two singletons inserted after the
channel dimension, which would be [3,1,1,4,6]. -/
theorem channel_axis_header_counterexample :
    ¬ (niftiShape sampleChan
        = sampleChan.channels ++ [1, 1] ++
            [(sampleChan.spatialShape 0).1, (sampleChan.spatialShape 0).2]) := by
  decide

/-- C6 (amended): for a codestream with leading channel dimensions the
multiscale axis list is a channel axis followed by the y and x spatial
axes, and the header data shape equals the reversal of the level-0 shape
with two singleton dimensions inserted after the channel dimensions. -/
theorem channel_axis_and_header_shape (i : ConvInput) (hc : i.channels ≠ []) :
    (mkMultiscale i).axes
      = Axis.mk "c" "channel" none ::
          [Axis.mk "y" "space" (some "micrometer"),
           Axis.mk "x" "space" (some "micrometer")] ∧
    niftiShape i
      = (i.channels ++ [1, 1] ++
          [(i.spatialShape 0).1, (i.spatialShape 0).2]).reverse := by
  have hlen : i.channels.length ≠ 0 := fun hz => hc (List.length_eq_zero.mp hz)
  constructor
  · show mkAxes i = _
    unfold mkAxes
    rw [if_pos hlen]
  · have hrev : (levelShape i 0).reverse
        = (i.spatialShape 0).2 :: (i.spatialShape 0).1 :: i.channels.reverse := by
      simp [levelShape]
    unfold niftiShape
    rw [if_pos hlen, hrev]
    simp [List.reverse_append]

/-- Witness for C6 (amended) at `sampleChan`. -/
theorem channel_axis_and_header_shape_witness :
    (mkMultiscale sampleChan).axes
      = Axis.mk "c" "channel" none ::
          [Axis.mk "y" "space" (some "micrometer"),
           Axis.mk "x" "space" (some "micrometer")] ∧
    niftiShape sampleChan
      = (sampleChan.channels ++ [1, 1] ++
          [(sampleChan.spatialShape 0).1, (sampleChan.spatialShape 0).2]).reverse :=
  channel_axis_and_header_shape sampleChan (by decide)

end LincConvert
